import Mathlib

/-!
Verification development for the client-side resilient data-access layer:
the TTL cache (`CacheManager`), the retry/backoff executors
(`PerformanceOptimizer.withRetry`, `SupabaseClient.withRetry`), the
caching strategies (`cacheFirst`, `networkFirst`, `staleWhileRevalidate`,
`lazyLoad`), batched loading (`batchLoad`), cache-key generation, and the
services facade (`ServicesManager.loadServices`).

The JavaScript source is embedded shallowly: JS values flowing through the
cache are modelled by the inductive `JVal` (with JS truthiness), a JS `Map`
is modelled by an insertion-ordered association list, `Date.now()` becomes
an explicit `now : Nat` argument, and asynchronous operations become
explicit outcome functions (`Nat → Except String α` gives the settled
outcome of the n-th attempt of a loader).  Time spent in `await delay(ms)`
is accumulated symbolically in a `totalDelay` field.
-/

set_option autoImplicit false

universe u v

mutual

/-- JavaScript values as stored in the cache and passed to loaders.
`undefined` is identified with `null`; numbers are modelled as integers
(no claim in this development depends on non-integral numerics).  Arrays
and objects carry their elements through the mutual types `JArr`/`JObj`
(lists of values, resp. insertion-ordered field lists), which keeps every
function on them structurally recursive and kernel-computable. -/
inductive JVal : Type where
  | null : JVal
  | bool : Bool → JVal
  | num : Int → JVal
  | str : String → JVal
  | arr : JArr → JVal
  | obj : JObj → JVal

/-- Elements of a JS array, in order. -/
inductive JArr : Type where
  | nil : JArr
  | cons : JVal → JArr → JArr

/-- Fields of a JS object, in the object's own (insertion) order. -/
inductive JObj : Type where
  | nil : JObj
  | cons : String → JVal → JObj → JObj

end

/-- JS truthiness: `null`/`undefined`, `false`, `0` and `""` are falsy;
every object and array is truthy. -/
def JVal.truthy : JVal → Bool
  | .null => false
  | .bool b => b
  | .num n => decide (n ≠ 0)
  | .str s => decide (s ≠ "")
  | .arr _ => true
  | .obj _ => true

/-- The field list of an object as an ordinary list, used to state which
field/value pairs an object holds. -/
def JObj.toList : JObj → List (String × JVal)
  | .nil => []
  | .cons k v t => (k, v) :: t.toList

/-- Whether an object has no fields (`Object.keys(params).length > 0`
fails exactly on these). -/
def JObj.isEmpty : JObj → Bool
  | .nil => true
  | .cons _ _ _ => false

mutual

/-- `JSON.stringify` on values: the literal serialization, emitting object
fields in the object's own order (string escaping is elided; every string
in this development is escape-free). -/
def JVal.stringify : JVal → String
  | .null => "null"
  | .bool true => "true"
  | .bool false => "false"
  | .num n => toString n
  | .str s => "\"" ++ s ++ "\""
  | .arr xs => "[" ++ JArr.stringifyItems xs ++ "]"
  | .obj fs => "\x7b" ++ JObj.stringifyFields fs ++ "\x7d"

/-- Comma-separated serialization of array elements. -/
def JArr.stringifyItems : JArr → String
  | .nil => ""
  | .cons x .nil => x.stringify
  | .cons x (JArr.cons y t) => x.stringify ++ "," ++ JArr.stringifyItems (JArr.cons y t)

/-- Comma-separated serialization of object fields, in field order. -/
def JObj.stringifyFields : JObj → String
  | .nil => ""
  | .cons k v .nil => "\"" ++ k ++ "\":" ++ v.stringify
  | .cons k v (JObj.cons k2 v2 t) =>
      "\"" ++ k ++ "\":" ++ v.stringify ++ "," ++ JObj.stringifyFields (JObj.cons k2 v2 t)

end

/-- Truthiness of an optional value (a JS `undefined`/`null` miss is falsy). -/
def truthyOpt : Option JVal → Bool
  | none => false
  | some v => v.truthy

section AssocOps

variable {κ : Type u} {α : Type v} [DecidableEq κ]

/-- `Map.prototype.get`: first (and, for states built by `Map` operations,
only) binding of key `k` in an insertion-ordered association list. -/
def lookupEntry : List (κ × α) → κ → Option α
  | [], _ => none
  | (k1, v) :: rest, k => if k = k1 then some v else lookupEntry rest k

/-- `Map.prototype.set`: replace the binding in place if the key is
present, otherwise append it (JS `Map` preserves insertion order). -/
def setEntry : List (κ × α) → κ → α → List (κ × α)
  | [], k, v => [(k, v)]
  | (k1, v1) :: rest, k, v =>
      if k = k1 then (k, v) :: rest else (k1, v1) :: setEntry rest k v

/-- `Map.prototype.delete`: remove the binding of `k` (the first one;
states built by `Map` operations have at most one). -/
def deleteEntry : List (κ × α) → κ → List (κ × α)
  | [], _ => []
  | (k1, v1) :: rest, k =>
      if k = k1 then rest else (k1, v1) :: deleteEntry rest k

theorem lookupEntry_setEntry_self (l : List (κ × α)) (k : κ) (v : α) :
    lookupEntry (setEntry l k v) k = some v := by
  induction l with
  | nil => simp [setEntry, lookupEntry]
  | cons p rest ih =>
      obtain ⟨k1, v1⟩ := p
      by_cases hk : k = k1
      · simp [setEntry, lookupEntry, hk]
      · simp [setEntry, lookupEntry, hk, ih]

theorem lookupEntry_eq_none {l : List (κ × α)} {k : κ}
    (h : k ∉ l.map Prod.fst) : lookupEntry l k = none := by
  induction l with
  | nil => simp [lookupEntry]
  | cons p rest ih =>
      obtain ⟨k1, v1⟩ := p
      simp only [List.map_cons, List.mem_cons] at h
      push_neg at h
      simp [lookupEntry, h.1, ih h.2]

theorem mem_map_fst_setEntry {l : List (κ × α)} {k a : κ} {v : α} :
    a ∈ (setEntry l k v).map Prod.fst ↔ a ∈ l.map Prod.fst ∨ a = k := by
  induction l with
  | nil => simp [setEntry]
  | cons p rest ih =>
      obtain ⟨k1, v1⟩ := p
      by_cases hk : k = k1
      · subst hk
        simp [setEntry]
        tauto
      · simp [setEntry, hk, ih]
        tauto

theorem nodup_map_fst_setEntry {l : List (κ × α)} {k : κ} {v : α}
    (h : (l.map Prod.fst).Nodup) : ((setEntry l k v).map Prod.fst).Nodup := by
  induction l with
  | nil => simp [setEntry]
  | cons p rest ih =>
      obtain ⟨k1, v1⟩ := p
      simp only [List.map_cons, List.nodup_cons] at h
      by_cases hk : k = k1
      · subst hk
        simpa [setEntry, List.nodup_cons] using h
      · simp only [setEntry, if_neg hk, List.map_cons, List.nodup_cons]
        constructor
        · intro hmem
          rcases mem_map_fst_setEntry.mp hmem with h1 | h1
          · exact h.1 h1
          · exact hk h1.symm
        · exact ih h.2

theorem lookupEntry_deleteEntry_self {l : List (κ × α)} {k : κ}
    (h : (l.map Prod.fst).Nodup) : lookupEntry (deleteEntry l k) k = none := by
  induction l with
  | nil => simp [deleteEntry, lookupEntry]
  | cons p rest ih =>
      obtain ⟨k1, v1⟩ := p
      simp only [List.map_cons, List.nodup_cons] at h
      by_cases hk : k = k1
      · subst hk
        simp only [deleteEntry, if_pos rfl]
        exact lookupEntry_eq_none h.1
      · simp [deleteEntry, lookupEntry, hk, ih h.2]

end AssocOps

/-- One stored cache entry (`{ data, timestamp, ttl }` as written by
`CacheManager.set`). -/
structure CacheEntry : Type where
  data : JVal
  timestamp : Nat
  ttl : Nat

/-- State of the `CacheManager` class.  The source keys its `Map` by
strings; the embedding is parametric in the key type (a JS `Map` accepts
any key) and is instantiated at `String` or at `Nat` in the theorems.
Constructor values: `defaultTTL = 300000` (5 minutes), `maxSize = 100`. -/
structure CacheManager (κ : Type u) : Type u where
  cache : List (κ × CacheEntry)
  defaultTTL : Nat := 300000
  maxSize : Nat := 100

/-- The freshly constructed cache manager. -/
def CacheManager.init {κ : Type u} : CacheManager κ :=
  { cache := [] }

/-- `CacheManager.cleanup()`: delete every entry with
`(now - value.timestamp) > value.ttl`. -/
def CacheManager.cleanup {κ : Type u} (s : CacheManager κ) (now : Nat) :
    CacheManager κ :=
  { s with cache := s.cache.filter (fun e => decide (now - e.2.timestamp ≤ e.2.ttl)) }

/-- `CacheManager.set(key, data, ttl)`: if `size >= maxSize`, run
`cleanup()` first (this is the only space-freeing step — no further
eviction happens), then store `{ data, timestamp: now, ttl }` under `key`.
Callers that omit `ttl` pass `defaultTTL`. -/
def CacheManager.set {κ : Type u} [DecidableEq κ] (s : CacheManager κ) (k : κ)
    (v : JVal) (ttl now : Nat) : CacheManager κ :=
  let s1 := if s.maxSize ≤ s.cache.length then s.cleanup now else s
  { s1 with cache := setEntry s1.cache k ⟨v, now, ttl⟩ }

/-- `CacheManager.get(key)`: `null` on a missing key; on a present key,
expired iff `(now - timestamp) > ttl`, in which case the entry is deleted
and `null` returned; otherwise the stored data is returned.  The returned
pair is (JS return value as `Option`, cache state after the read). -/
def CacheManager.get {κ : Type u} [DecidableEq κ] (s : CacheManager κ) (k : κ)
    (now : Nat) : Option JVal × CacheManager κ :=
  match lookupEntry s.cache k with
  | none => (none, s)
  | some e =>
      if now - e.timestamp > e.ttl then
        (none, { s with cache := deleteEntry s.cache k })
      else
        (some e.data, s)

theorem nodup_keys_cleanup {κ : Type u} {s : CacheManager κ} {now : Nat}
    (h : (s.cache.map Prod.fst).Nodup) :
    (((s.cleanup now).cache).map Prod.fst).Nodup := by
  exact ((List.filter_sublist s.cache).map Prod.fst).nodup h

theorem nodup_keys_set {κ : Type u} [DecidableEq κ] {s : CacheManager κ}
    {k : κ} {v : JVal} {ttl now : Nat} (h : (s.cache.map Prod.fst).Nodup) :
    (((s.set k v ttl now).cache).map Prod.fst).Nodup := by
  unfold CacheManager.set
  split
  · exact nodup_map_fst_setEntry (nodup_keys_cleanup h)
  · exact nodup_map_fst_setEntry h

theorem lookup_cache_set_self {κ : Type u} [DecidableEq κ] (s : CacheManager κ)
    (k : κ) (v : JVal) (ttl now : Nat) :
    lookupEntry (s.set k v ttl now).cache k = some ⟨v, now, ttl⟩ := by
  unfold CacheManager.set
  split <;> exact lookupEntry_setEntry_self _ _ _

/-- `CacheManager.generateKey(prefix, params)`: the key is the prefix, an
underscore, and (for a non-empty params object) `JSON.stringify(params)`;
an empty params object contributes the empty string. -/
def CacheManager.generateKey (pre : String) (params : JObj) : String :=
  let paramString := if params.isEmpty then "" else JVal.stringify (.obj params)
  pre ++ "_" ++ paramString

/-- `SupabaseClient.getCacheKey(table, params)`: always
`table + "_" + JSON.stringify(params)` (no empty-object special case). -/
def SupabaseClient.getCacheKey (table : String) (params : JObj) : String :=
  table ++ "_" ++ JVal.stringify (.obj params)

/-- Cache state reached from a fresh `CacheManager` by 101 `set` calls
with distinct keys at time 0, each with the default TTL (300000 ms), so
none of them is ever expired during the run. -/
def overfullCache : CacheManager Nat :=
  (List.range 101).foldl (fun s i => s.set i (.str "x") 300000 0) CacheManager.init

/-- Auxiliary bound: `setEntry` grows an association list by at most one
binding (none when it replaces in place). -/
theorem length_setEntry_le {κ : Type u} {α : Type v} [DecidableEq κ]
    (l : List (κ × α)) (k : κ) (v : α) :
    (setEntry l k v).length ≤ l.length + 1 := by
  induction l with
  | nil => simp [setEntry]
  | cons p rest ih =>
      obtain ⟨k1, v1⟩ := p
      by_cases hk : k = k1
      · simp [setEntry, hk]
      · simp only [setEntry, if_neg hk, List.length_cons]
        omega

/-- C1 (counterexample): the claim asserts `get(k)` returns absent for
every read at `t' ≥ t + ttl`.  At the boundary `t' = t + ttl` the code
tests `(now - timestamp) > ttl`, which is false, so the value is still
returned: after `set("k", "v", ttl 10)` at time 0, a read at time 10
(which satisfies `10 ≥ 0 + 10`) yields the value, not absent. -/
theorem ttl_boundary_read_cex :
    ((CacheManager.init.set "k" (JVal.str "v") 10 0).get "k" 10).fst
        = some (JVal.str "v")
    ∧ 0 + 10 ≤ 10 :=
  ⟨rfl, by decide⟩

/-- C1 (amended): after `set(k, v, ttl)` at time `t`, a read at `t'` with
`t ≤ t'` returns `v` whenever `t' ≤ t + ttl` (the boundary instant
included) and returns absent whenever `t' > t + ttl`; the expired read
deletes the entry as a side effect.  Stated for cache states whose keys
are duplicate-free, the representation invariant of a JS `Map`. -/
theorem ttl_set_get_contract (s : CacheManager String) (k : String) (v : JVal)
    (d t tr : Nat) (hnd : (s.cache.map Prod.fst).Nodup) (ht : t ≤ tr) :
    (tr ≤ t + d → ((s.set k v d t).get k tr).fst = some v) ∧
    (t + d < tr → ((s.set k v d t).get k tr).fst = none ∧
      lookupEntry ((s.set k v d t).get k tr).snd.cache k = none) := by
  have hlk : lookupEntry (s.set k v d t).cache k = some ⟨v, t, d⟩ :=
    lookup_cache_set_self s k v d t
  have hnd2 : (((s.set k v d t).cache).map Prod.fst).Nodup := nodup_keys_set hnd
  constructor
  · intro hle
    have hexp : ¬ (tr - t > d) := by omega
    simp [CacheManager.get, hlk, hexp]
  · intro hgt
    have hexp : d < tr - t := by omega
    constructor
    · simp [CacheManager.get, hlk, hexp]
    · have h2 := @lookupEntry_deleteEntry_self _ _ _ _ k hnd2
      simp only [CacheManager.get, hlk, gt_iff_lt]
      simpa [hexp] using h2

/-- C1 (witness): concrete run of the contract — on an empty cache,
`set("k", "v", ttl 10)` at time 0 followed by a read at time 11 yields
absent and leaves no entry for the key. -/
theorem ttl_set_get_contract_witness :
    ((CacheManager.init.set "k" (JVal.str "v") 10 0).get "k" 11).fst = none ∧
    lookupEntry ((CacheManager.init.set "k" (JVal.str "v") 10 0).get "k" 11).snd.cache "k" = none :=
  (ttl_set_get_contract CacheManager.init "k" (JVal.str "v") 10 0 11
    (by simp [CacheManager.init]) (by omega)).2 (by omega)

set_option maxRecDepth 40000 in
/-- C4 (counterexample): the claim asserts `|entries| ≤ maxSize` in every
reachable state.  `set` only runs `cleanup()` (which removes expired
entries) when the cache is full and never evicts valid entries, so 101
`set` calls with distinct keys and unexpired TTLs drive a fresh cache
(maxSize 100) to 101 entries. -/
theorem cache_capacity_cex :
    overfullCache.cache.length = 101 ∧ overfullCache.maxSize = 100 ∧
    ¬ overfullCache.cache.length ≤ overfullCache.maxSize := by
  refine ⟨by decide, by decide, by decide⟩

/-- C4 (amended): `set` on a cache at or above `maxSize` first purges all
expired entries, but performs no further eviction; the only bound it
restores is that the entry count after `set` is at most one more than the
(purged, when the cache was full) prior count, so `|entries|` exceeds
`maxSize` whenever more than `maxSize` entries are simultaneously valid. -/
theorem cache_capacity_after_set {κ : Type u} [DecidableEq κ]
    (s : CacheManager κ) (k : κ) (v : JVal) (ttl now : Nat) :
    (s.set k v ttl now).cache.length ≤
      (if s.maxSize ≤ s.cache.length then (s.cleanup now).cache.length
       else s.cache.length) + 1 := by
  unfold CacheManager.set
  split
  · exact length_setEntry_le _ _ _
  · exact length_setEntry_le _ _ _

/-- Two-field parameter object `{a: 1, b: 2}`. -/
def paramsAB : JObj := .cons "a" (.num 1) (.cons "b" (.num 2) .nil)

/-- The same two field/value pairs in the opposite literal order. -/
def paramsBA : JObj := .cons "b" (.num 2) (.cons "a" (.num 1) .nil)

/-- C6 (counterexample): the claim asserts key generation is invariant
under reordering of the parameter object's fields.  Both key generators
serialize fields in the object's own order, so `{a: 1, b: 2}` and
`{b: 2, a: 1}` — the same field/value pairs — produce different keys. -/
theorem cache_key_reorder_cex :
    paramsBA.toList = paramsAB.toList.reverse ∧
    CacheManager.generateKey "services" paramsAB ≠
      CacheManager.generateKey "services" paramsBA ∧
    SupabaseClient.getCacheKey "services" paramsAB ≠
      SupabaseClient.getCacheKey "services" paramsBA :=
  ⟨rfl, by decide, by decide⟩

/-- C6 (amended): cache keys are determined by the literal serialization
of the parameter object: parameter objects with equal serializations (the
same fields in the same order) yield identical keys under both
`CacheManager.generateKey` and `SupabaseClient.getCacheKey`; key
generation is not invariant under field reordering. -/
theorem cache_key_literal_order (pre : String) (p q : JObj)
    (hs : JVal.stringify (.obj p) = JVal.stringify (.obj q))
    (he : p.isEmpty = q.isEmpty) :
    CacheManager.generateKey pre p = CacheManager.generateKey pre q ∧
    SupabaseClient.getCacheKey pre p = SupabaseClient.getCacheKey pre q := by
  constructor
  · simp only [CacheManager.generateKey, he, hs]
  · simp only [SupabaseClient.getCacheKey, hs]

/-- C6 (witness): concrete instantiation of the amended statement on the
parameter object `{a: 1, b: 2}` compared with itself. -/
theorem cache_key_literal_order_witness :
    CacheManager.generateKey "services" paramsAB =
      CacheManager.generateKey "services" paramsAB ∧
    SupabaseClient.getCacheKey "services" paramsAB =
      SupabaseClient.getCacheKey "services" paramsAB :=
  cache_key_literal_order "services" paramsAB paramsAB rfl rfl

/-- Outcome of a retry executor run: the settled result, the number of
invocations of the wrapped operation, and the total time the caller spent
suspended in backoff delays (summed symbolically). -/
structure RetryResult (α : Type u) : Type u where
  result : Except String α
  calls : Nat
  totalDelay : Nat

/-- Loop body of `PerformanceOptimizer.withRetry`, with the number of
attempts still permitted as the (structural) countdown.  On failure with
further attempts permitted the computed delay is
`min(baseDelay * factor^(attempt-1), maxDelay)`;  `factor` and `maxDelay`
always come from the instance config (`2` and `10000`). -/
def PerformanceOptimizer.retryGo {α : Type u} (operation : Nat → Except String α)
    (baseDelay factor maxDelay attempt : Nat) : Nat → RetryResult α
  | 0 => ⟨.error "", 0, 0⟩
  | remaining + 1 =>
      match operation attempt with
      | .ok v => ⟨.ok v, 1, 0⟩
      | .error e =>
          match remaining with
          | 0 => ⟨.error e, 1, 0⟩
          | r + 1 =>
              let d := min (baseDelay * factor ^ (attempt - 1)) maxDelay
              let rest := PerformanceOptimizer.retryGo operation baseDelay factor
                maxDelay (attempt + 1) (r + 1)
              ⟨rest.result, rest.calls + 1, rest.totalDelay + d⟩

/-- `PerformanceOptimizer.withRetry(operation, options)`: attempts
`1 .. maxRetries + 1`; a failed attempt `a ≤ maxRetries` suspends for
`min(baseDelay * 2^(a-1), 10000)` and retries; exhaustion surfaces the
last observed error.  `operation n` is the settled outcome of the n-th
invocation (a timeout manifests as an error outcome). -/
def PerformanceOptimizer.withRetry {α : Type u} (operation : Nat → Except String α)
    (maxRetries baseDelay : Nat) : RetryResult α :=
  PerformanceOptimizer.retryGo operation baseDelay 2 10000 1 (maxRetries + 1)

/-- The `{ data, error }` result objects the remote service returns; a
non-null `error` field is the embedded application-level error channel. -/
structure SupaResult (α : Type u) : Type u where
  data : Option α
  error : Option String

/-- One attempt as seen by `SupabaseClient.withRetry`: a thrown error
passes through, and a returned result object whose `error` field is
non-null is converted to a thrown `Supabase error: ...`. -/
def SupabaseClient.attemptOutcome {α : Type u}
    (operation : Nat → Except String (SupaResult α)) (attempt : Nat) :
    Except String (SupaResult α) :=
  match operation attempt with
  | .error e => .error e
  | .ok r =>
      match r.error with
      | some m => .error ("Supabase error: " ++ m)
      | none => .ok r

/-- Loop body of `SupabaseClient.withRetry`: attempts `1 .. retryCount`;
a failed attempt `a < retryCount` suspends for `retryDelay * 2^(a-1)`
(no cap) and retries; exhaustion throws a fresh terminal error embedding
the last error's message. -/
def SupabaseClient.retryGo {α : Type u} (operation : Nat → Except String (SupaResult α))
    (retryDelay retryCount : Nat) (context : String) (attempt : Nat) :
    Nat → RetryResult (SupaResult α)
  | 0 => ⟨.error "TypeError: lastError is undefined", 0, 0⟩
  | remaining + 1 =>
      match SupabaseClient.attemptOutcome operation attempt with
      | .ok r => ⟨.ok r, 1, 0⟩
      | .error e =>
          match remaining with
          | 0 => ⟨.error ("Falha após " ++ toString retryCount ++ " tentativas em "
              ++ context ++ ": " ++ e), 1, 0⟩
          | r + 1 =>
              let d := retryDelay * 2 ^ (attempt - 1)
              let rest := SupabaseClient.retryGo operation retryDelay retryCount
                context (attempt + 1) (r + 1)
              ⟨rest.result, rest.calls + 1, rest.totalDelay + d⟩

/-- `SupabaseClient.withRetry(operation, context)` with the instance
configuration made explicit (`retryCount = 3`, `retryDelay = 1000` in the
constructor).  The fuel-0 branch of the loop is unreachable for
`retryCount ≥ 1` (with `retryCount = 0` the JS loop body never runs and
the function faults reading `lastError.message`). -/
def SupabaseClient.withRetry {α : Type u} (operation : Nat → Except String (SupaResult α))
    (retryCount retryDelay : Nat) (context : String) : RetryResult (SupaResult α) :=
  SupabaseClient.retryGo operation retryDelay retryCount context 1 retryCount

/-- A loader whose every attempt fails with a transport error. -/
def alwaysFailNet : Nat → Except String (SupaResult JVal) :=
  fun _ => .error "network unreachable"

/-- A plain loader whose every attempt fails with the same error. -/
def boomLoader : Nat → Except String JVal :=
  fun _ => .error "boom"

/-- C3 (counterexample): the claim predicts `maxRetries + 1` invocations
and capped delays `min(baseDelay * 2^(a-1), maxDelay)`.
`SupabaseClient.withRetry` (one of the two retry executors the claim
covers, configured by `retryCount`) invokes an always-failing loader
exactly `retryCount` times — at the shipped configuration `retryCount =
3` that is 3 invocations, not `3 + 1`; and its backoff carries no
`maxDelay` cap: at `retryCount = 6` the suspended time is
`1000 + 2000 + 4000 + 8000 + 16000 = 31000`, where the claim's capped sum
(reading the budget as 5 retries) would be `25000`. -/
theorem retry_bound_cex :
    (SupabaseClient.withRetry alwaysFailNet 3 1000 "op").calls = 3 ∧
    (3 : Nat) ≠ 3 + 1 ∧
    (SupabaseClient.withRetry alwaysFailNet 6 1000 "op").calls = 6 ∧
    (SupabaseClient.withRetry alwaysFailNet 6 1000 "op").totalDelay = 31000 ∧
    (31000 : Nat) ≠ 1000 + 2000 + 4000 + 8000 + 10000 :=
  ⟨rfl, by decide, rfl, rfl, by decide⟩

/-- Closed form of the optimizer retry loop on an always-failing
operation. -/
theorem PerformanceOptimizer.retryGo_fail_opt {α : Type u}
    (f : Nat → Except String α) (errF : Nat → String)
    (hf : ∀ a, f a = .error (errF a)) (b fac md : Nat) :
    ∀ rem attempt, 1 ≤ rem →
      PerformanceOptimizer.retryGo f b fac md attempt rem =
        ⟨.error (errF (attempt + rem - 1)), rem,
         (Finset.range (rem - 1)).sum (fun i => min (b * fac ^ (attempt + i - 1)) md)⟩ := by
  intro rem
  induction rem with
  | zero => omega
  | succ r ih =>
      intro attempt _
      match r, ih with
      | 0, _ =>
          simp [PerformanceOptimizer.retryGo, hf attempt]
      | r' + 1, ih =>
          have hrec := ih (attempt + 1) (by omega)
          simp only [PerformanceOptimizer.retryGo, hf attempt, hrec]
          have hidx : attempt + 1 + (r' + 1) - 1 = attempt + (r' + 1 + 1) - 1 := by omega
          have hsum : (Finset.range (r' + 1 - 1)).sum
                (fun i => min (b * fac ^ (attempt + 1 + i - 1)) md)
                + min (b * fac ^ (attempt - 1)) md
              = (Finset.range (r' + 1 + 1 - 1)).sum
                (fun i => min (b * fac ^ (attempt + i - 1)) md) := by
            rw [show r' + 1 + 1 - 1 = r' + 1 by omega, Finset.sum_range_succ',
              show r' + 1 - 1 = r' by omega,
              show attempt + 0 - 1 = attempt - 1 by omega]
            refine congrArg₂ (· + ·) ?_ rfl
            refine Finset.sum_congr rfl ?_
            intro i _
            rw [show attempt + (i + 1) - 1 = attempt + 1 + i - 1 by omega]
          rw [hidx, hsum]

/-- Closed form of the supabase retry loop on an always-failing
operation. -/
theorem SupabaseClient.retryGo_fail_supa {α : Type u}
    (g : Nat → Except String (SupaResult α)) (errG : Nat → String)
    (hg : ∀ a, SupabaseClient.attemptOutcome g a = .error (errG a))
    (rd rc : Nat) (ctx : String) :
    ∀ rem attempt, 1 ≤ rem →
      SupabaseClient.retryGo g rd rc ctx attempt rem =
        ⟨.error ("Falha após " ++ toString rc ++ " tentativas em " ++ ctx ++ ": "
            ++ errG (attempt + rem - 1)), rem,
         (Finset.range (rem - 1)).sum (fun i => rd * 2 ^ (attempt + i - 1))⟩ := by
  intro rem
  induction rem with
  | zero => omega
  | succ r ih =>
      intro attempt _
      match r, ih with
      | 0, _ =>
          simp [SupabaseClient.retryGo, hg attempt]
      | r' + 1, ih =>
          have hrec := ih (attempt + 1) (by omega)
          simp only [SupabaseClient.retryGo, hg attempt, hrec]
          have hidx : attempt + 1 + (r' + 1) - 1 = attempt + (r' + 1 + 1) - 1 := by omega
          have hsum : (Finset.range (r' + 1 - 1)).sum
                (fun i => rd * 2 ^ (attempt + 1 + i - 1))
                + rd * 2 ^ (attempt - 1)
              = (Finset.range (r' + 1 + 1 - 1)).sum
                (fun i => rd * 2 ^ (attempt + i - 1)) := by
            rw [show r' + 1 + 1 - 1 = r' + 1 by omega, Finset.sum_range_succ',
              show r' + 1 - 1 = r' by omega,
              show attempt + 0 - 1 = attempt - 1 by omega]
            refine congrArg₂ (· + ·) ?_ rfl
            refine Finset.sum_congr rfl ?_
            intro i _
            rw [show attempt + (i + 1) - 1 = attempt + 1 + i - 1 by omega]
          rw [hidx, hsum]

/-- C3 (amended): with a loader failing on every attempt,
`PerformanceOptimizer.withRetry` invokes it exactly `maxRetries + 1`
times, surfaces the last attempt's error, and suspends for
`sum over a = 1..maxRetries of min(baseDelay * 2^(a-1), 10000)`;
`SupabaseClient.withRetry`, whose budget knob is `retryCount`, invokes it
exactly `retryCount` times (not `retryCount + 1`), wraps the last error
in a fresh terminal message, and suspends for
`sum over a = 1..retryCount-1 of retryDelay * 2^(a-1)` with no
`maxDelay` cap. -/
theorem retry_bound_terminal {α : Type u}
    (f : Nat → Except String α) (errF : Nat → String)
    (hf : ∀ a, f a = .error (errF a)) (mr b : Nat)
    (g : Nat → Except String (SupaResult α)) (errG : Nat → String)
    (hg : ∀ a, g a = .error (errG a)) (rc rd : Nat) (ctx : String)
    (hrc : 1 ≤ rc) :
    PerformanceOptimizer.withRetry f mr b =
      ⟨.error (errF (mr + 1)), mr + 1,
       (Finset.Icc 1 mr).sum (fun a => min (b * 2 ^ (a - 1)) 10000)⟩ ∧
    SupabaseClient.withRetry g rc rd ctx =
      ⟨.error ("Falha após " ++ toString rc ++ " tentativas em " ++ ctx
          ++ ": " ++ errG rc), rc,
       (Finset.Icc 1 (rc - 1)).sum (fun a => rd * 2 ^ (a - 1))⟩ := by
  constructor
  · have h := PerformanceOptimizer.retryGo_fail_opt f errF hf b 2 10000 (mr + 1) 1 (by omega)
    simp only [show 1 + (mr + 1) - 1 = mr + 1 by omega] at h
    have hicc : (Finset.Icc 1 mr).sum (fun a => min (b * 2 ^ (a - 1)) 10000)
        = (Finset.range (mr + 1 - 1)).sum (fun i => min (b * 2 ^ (1 + i - 1)) 10000) := by
      rw [← Nat.Ico_succ_right, Finset.sum_Ico_eq_sum_range]
    unfold PerformanceOptimizer.withRetry
    rw [h, hicc]
  · have hg2 : ∀ a, SupabaseClient.attemptOutcome g a = .error (errG a) := by
      intro a
      simp [SupabaseClient.attemptOutcome, hg a]
    have h2 := SupabaseClient.retryGo_fail_supa g errG hg2 rd rc ctx rc 1 hrc
    simp only [show 1 + rc - 1 = rc by omega] at h2
    have hicc : (Finset.Icc 1 (rc - 1)).sum (fun a => rd * 2 ^ (a - 1))
        = (Finset.range (rc - 1)).sum (fun i => rd * 2 ^ (1 + i - 1)) := by
      rw [← Nat.Ico_succ_right, Finset.sum_Ico_eq_sum_range]
      simp
    unfold SupabaseClient.withRetry
    rw [h2, hicc]

/-- C3 (witness): both executors run on concrete always-failing loaders at
the shipped configurations. -/
theorem retry_bound_terminal_witness :
    PerformanceOptimizer.withRetry boomLoader 3 1000 =
      ⟨.error "boom", 3 + 1,
       (Finset.Icc 1 3).sum (fun a => min (1000 * 2 ^ (a - 1)) 10000)⟩ ∧
    SupabaseClient.withRetry alwaysFailNet 3 1000 "op" =
      ⟨.error ("Falha após " ++ toString 3 ++ " tentativas em " ++ "op"
          ++ ": " ++ "network unreachable"), 3,
       (Finset.Icc 1 (3 - 1)).sum (fun a => 1000 * 2 ^ (a - 1))⟩ :=
  retry_bound_terminal boomLoader (fun _ => "boom")
    (fun _ => rfl) 3 1000 alwaysFailNet (fun _ => "network unreachable")
    (fun _ => rfl) 3 1000 "op" (by omega)

/-- A loader whose every attempt resolves with a result object carrying
an embedded (non-null) error field. -/
def embErrLoader : Nat → Except String (SupaResult JVal) :=
  fun _ => .ok ⟨some .null, some "permission denied"⟩

/-- C7 (counterexample): the claim asserts every operation passed to the
retry executor has embedded-error results treated as failures.
`PerformanceOptimizer.withRetry` performs no such check: a result object
with a non-null `error` field is returned to the caller as a success on
the very first attempt, with no retry. -/
theorem embedded_error_cex :
    (PerformanceOptimizer.withRetry embErrLoader 3 1000).result
        = .ok ⟨some JVal.null, some "permission denied"⟩ ∧
    (PerformanceOptimizer.withRetry embErrLoader 3 1000).calls = 1 :=
  ⟨rfl, rfl⟩

/-- An attempt outcome that is a success carries no embedded error. -/
theorem SupabaseClient.attemptOutcome_ok {α : Type u}
    {g : Nat → Except String (SupaResult α)} {a : Nat} {r : SupaResult α}
    (h : SupabaseClient.attemptOutcome g a = .ok r) : r.error = none := by
  unfold SupabaseClient.attemptOutcome at h
  split at h
  · exact absurd h (by simp)
  · split at h
    · exact absurd h (by simp)
    · cases h
      assumption

/-- The supabase retry loop never returns a result object with a non-null
error field as a success. -/
theorem SupabaseClient.retryGo_ok_error_none {α : Type u}
    (g : Nat → Except String (SupaResult α)) (rd rc : Nat) (ctx : String) :
    ∀ rem attempt (r : SupaResult α),
      (SupabaseClient.retryGo g rd rc ctx attempt rem).result = .ok r →
      r.error = none := by
  intro rem
  induction rem with
  | zero =>
      intro attempt r h
      exact absurd h (by simp [SupabaseClient.retryGo])
  | succ rem ih =>
      intro attempt r h
      unfold SupabaseClient.retryGo at h
      cases ha : SupabaseClient.attemptOutcome g attempt with
      | ok r0 =>
          rw [ha] at h
          simp at h
          exact h ▸ SupabaseClient.attemptOutcome_ok ha
      | error e =>
          rw [ha] at h
          cases rem with
          | zero => exact absurd h (by simp)
          | succ r' => exact ih (attempt + 1) r h

/-- The retry loop performs at least one call whenever an attempt is
permitted. -/
theorem SupabaseClient.retryGo_calls_pos {α : Type u}
    (g : Nat → Except String (SupaResult α)) (rd rc : Nat) (ctx : String)
    (attempt rem : Nat) (h : 1 ≤ rem) :
    1 ≤ (SupabaseClient.retryGo g rd rc ctx attempt rem).calls := by
  cases rem with
  | zero => omega
  | succ r =>
      unfold SupabaseClient.retryGo
      cases SupabaseClient.attemptOutcome g attempt with
      | ok r0 => simp
      | error e =>
          cases r with
          | zero => simp
          | succ r' => simp

/-- A failed attempt with budget left adds one call before retrying. -/
theorem SupabaseClient.retryGo_step_error {α : Type u}
    (g : Nat → Except String (SupaResult α)) (rd rc : Nat) (ctx : String)
    (attempt r' : Nat) (e : String)
    (he : SupabaseClient.attemptOutcome g attempt = .error e) :
    (SupabaseClient.retryGo g rd rc ctx attempt (r' + 2)).calls =
      (SupabaseClient.retryGo g rd rc ctx (attempt + 1) (r' + 1)).calls + 1 := by
  conv_lhs => rw [SupabaseClient.retryGo]
  rw [he]

/-- C7 (amended): `SupabaseClient.withRetry` converts a result object with
a non-null `error` field into a thrown failure: it never returns such a
result as a success, and a first attempt resolving with an embedded error
is retried (at least a second call happens) whenever the budget allows;
`PerformanceOptimizer.withRetry` performs no embedded-error check and
returns such a result as a success (see the counterexample). -/
theorem embedded_error_policy {α : Type u}
    (g : Nat → Except String (SupaResult α)) (rc rd : Nat) (ctx : String)
    (r : SupaResult α) (d : Option α) (e : String) :
    ((SupabaseClient.withRetry g rc rd ctx).result = .ok r → r.error = none) ∧
    (g 1 = .ok ⟨d, some e⟩ → 2 ≤ rc →
      2 ≤ (SupabaseClient.withRetry g rc rd ctx).calls) := by
  constructor
  · intro h
    exact SupabaseClient.retryGo_ok_error_none g rd rc ctx rc 1 r h
  · intro h1 hrc
    have ha : SupabaseClient.attemptOutcome g 1 = .error ("Supabase error: " ++ e) := by
      simp [SupabaseClient.attemptOutcome, h1]
    obtain ⟨r2, rfl⟩ : ∃ r2, rc = r2 + 2 := ⟨rc - 2, by omega⟩
    have hpos := SupabaseClient.retryGo_calls_pos g rd (r2 + 2) ctx (1 + 1) (r2 + 1) (by omega)
    unfold SupabaseClient.withRetry
    rw [SupabaseClient.retryGo_step_error g rd (r2 + 2) ctx 1 r2 _ ha]
    omega

/-- C7 (witness): the never-success-with-embedded-error conclusion applied
to a loader succeeding cleanly on attempt 1, and the retry conclusion
applied to `embErrLoader` at the shipped configuration. -/
theorem embedded_error_policy_witness :
    (⟨some JVal.null, none⟩ : SupaResult JVal).error = none ∧
    2 ≤ (SupabaseClient.withRetry embErrLoader 3 1000 "c").calls :=
  ⟨(embedded_error_policy (fun _ => .ok ⟨some JVal.null, none⟩) 3 1000 "c"
      ⟨some JVal.null, none⟩ none "x").1 rfl,
   (embedded_error_policy embErrLoader 3 1000 "c" ⟨some JVal.null, none⟩
      (some JVal.null) "permission denied").2 rfl (by omega)⟩

/-- An attempt function that succeeds at once makes the retry wrapper
return after a single call with no suspension. -/
theorem PerformanceOptimizer.withRetry_first_ok {α : Type u}
    (f : Nat → Except String α) (v : α) (mr b : Nat) (hf : f 1 = .ok v) :
    PerformanceOptimizer.withRetry f mr b = ⟨.ok v, 1, 0⟩ := by
  unfold PerformanceOptimizer.withRetry
  conv_lhs => rw [PerformanceOptimizer.retryGo]
  rw [hf]

/-- `Promise.all` over already-settled outcomes: all values when every
outcome succeeded, rejection (`none`) as soon as any outcome failed. -/
def PerformanceOptimizer.allOk {β : Type u} : List (Except String β) → Option (List β)
  | [] => some []
  | .ok v :: rest => (PerformanceOptimizer.allOk rest).map (fun vs => v :: vs)
  | .error _ :: _ => none

/-- Fixed-size grouping (`items.slice(i, i + batchSize)` advancing by
`batchSize`), with the list length as structural fuel. -/
def chunksGo {β : Type u} (bs : Nat) : Nat → List β → List (List β)
  | 0, _ => []
  | _, [] => []
  | fuel + 1, x :: xs => (x :: xs).take bs :: chunksGo bs fuel ((x :: xs).drop bs)

/-- The batches `batchLoad` iterates over. -/
def chunks {β : Type u} (bs : Nat) (l : List β) : List (List β) :=
  chunksGo bs l.length l

/-- JS `x || d` on a number: `0` (falsy) falls back to the default. -/
def orDefault (n d : Nat) : Nat := if n = 0 then d else n

/-- `PerformanceOptimizer.batchLoad(items, loader, options)`: partition
into groups of `batchSize` (default 5); each group's items run through
`withRetry` individually and are awaited with `Promise.all`; a rejected
group is caught, its results dropped, and the loop continues with the
next group.  The inter-batch delay does not affect the collected results
and is not tracked here. -/
def PerformanceOptimizer.batchLoad {β : Type u} {γ : Type v} (items : List β)
    (loader : β → Nat → Except String γ) (batchSize maxRetries baseDelay : Nat) :
    List γ :=
  let bs := orDefault batchSize 5
  (chunks bs items).foldl
    (fun results batch =>
      match PerformanceOptimizer.allOk
          (batch.map (fun it =>
            (PerformanceOptimizer.withRetry (loader it) maxRetries baseDelay).result)) with
      | some vals => results ++ vals
      | none => results)
    []

/-- Per-item attempt outcomes for the five-item batch scenario: item 2
(the third item, "c") always fails, every other item i succeeds with
`100 + i` on the first attempt. -/
def c5loader : Nat → Nat → Except String Nat :=
  fun i _ => if i = 2 then .error "item c always fails" else .ok (100 + i)

/-- C5 (counterexample): the claim predicts
`batchLoad([a,b,c,d,e], loader, batchSize=2)` with `c` always failing
returns the four results `[r(a), r(b), r(d), r(e)]`.  The code awaits
each batch with `Promise.all` inside a `try` whose `catch` drops the
whole batch: the failing item `c` takes its sibling `d` down with it, and
only three results `[r(a), r(b), r(e)]` are returned. -/
theorem batch_partial_failure_cex :
    PerformanceOptimizer.batchLoad [0, 1, 2, 3, 4] c5loader 2 3 1000
        = [100, 101, 104] ∧
    PerformanceOptimizer.batchLoad [0, 1, 2, 3, 4] c5loader 2 3 1000
        ≠ [100, 101, 103, 104] :=
  ⟨rfl, by decide⟩

/-- C5 (amended): `batchLoad([a,b,c,d,e], loader, batchSize=2)` where
loading `c` always fails (after its retries) and every other item
succeeds returns `[result(a), result(b), result(e)]` in order and does
not throw: a failing item aborts its sibling batch — every result of the
batch containing the failure is omitted — while the other batches are
still collected. -/
theorem batch_sibling_omitted {β : Type u} {γ : Type v} (a b c d e : β)
    (g : β → Nat → Except String γ) (ra rb rd re : γ) (ec : String)
    (ha : g a 1 = .ok ra) (hb : g b 1 = .ok rb)
    (hc : ∀ n, g c n = .error ec)
    (hd : g d 1 = .ok rd) (he : g e 1 = .ok re) (mr bd : Nat) :
    PerformanceOptimizer.batchLoad [a, b, c, d, e] g 2 mr bd = [ra, rb, re] := by
  have hwa := PerformanceOptimizer.withRetry_first_ok (g a) ra mr bd ha
  have hwb := PerformanceOptimizer.withRetry_first_ok (g b) rb mr bd hb
  have hwd := PerformanceOptimizer.withRetry_first_ok (g d) rd mr bd hd
  have hwe := PerformanceOptimizer.withRetry_first_ok (g e) re mr bd he
  have hwc : (PerformanceOptimizer.withRetry (g c) mr bd).result
      = .error ec := by
    have hfail := PerformanceOptimizer.retryGo_fail_opt (g c) (fun _ => ec)
      (fun n => hc n) bd 2 10000 (mr + 1) 1 (by omega)
    unfold PerformanceOptimizer.withRetry
    rw [hfail]
  simp [PerformanceOptimizer.batchLoad, orDefault, chunks, chunksGo,
    PerformanceOptimizer.allOk, hwa, hwb, hwc, hwd, hwe]

/-- C5 (witness): the amended statement on the concrete five-item run. -/
theorem batch_sibling_omitted_witness :
    PerformanceOptimizer.batchLoad [0, 1, 2, 3, 4] c5loader 2 3 1000
        = [100, 101, 104] :=
  batch_sibling_omitted 0 1 2 3 4 c5loader 100 101 103 104 "item c always fails"
    rfl rfl (fun _ => rfl) rfl rfl 3 1000

/-- The retry loop performs at most as many calls as it has attempts. -/
theorem PerformanceOptimizer.retryGo_calls_le {α : Type u}
    (op : Nat → Except String α) (b fac md : Nat) :
    ∀ rem attempt, (PerformanceOptimizer.retryGo op b fac md attempt rem).calls ≤ rem := by
  intro rem
  induction rem with
  | zero =>
      intro attempt
      simp [PerformanceOptimizer.retryGo]
  | succ r ih =>
      intro attempt
      unfold PerformanceOptimizer.retryGo
      cases hop : op attempt with
      | ok v => simp
      | error e =>
          cases r with
          | zero => simp
          | succ r2 =>
              have := ih (attempt + 1)
              simp only []
              omega

/-- Result, cache state, and number of loader invocations of one strategy
call. -/
structure StrategyOutcome (κ : Type u) : Type u where
  result : Except String JVal
  cache : CacheManager κ
  loaderCalls : Nat

/-- The load-then-store tail shared verbatim by `cacheFirst` and by
`staleWhileRevalidate`'s miss path: run the default-config retried load;
on success, write the result into the cache only when it is truthy
(`if (window.cacheManager && result)`), and return it; on failure
propagate the error. -/
def PerformanceOptimizer.loadAndStore {κ : Type u} [DecidableEq κ]
    (s1 : CacheManager κ) (k : κ) (loader : Nat → Except String JVal)
    (ttl now : Nat) : StrategyOutcome κ :=
  let r := PerformanceOptimizer.withRetry loader 3 1000
  match r.result with
  | .ok v => ⟨.ok v, if v.truthy then s1.set k v ttl now else s1, r.calls⟩
  | .error e => ⟨.error e, s1, r.calls⟩

/-- `PerformanceOptimizer.cacheFirst(key, loader, ttl)`: return the cached
value if `get` yields a truthy one; otherwise (miss, or falsy cached
data) perform the retried load and store a truthy result. -/
def PerformanceOptimizer.cacheFirst {κ : Type u} [DecidableEq κ]
    (s : CacheManager κ) (k : κ) (loader : Nat → Except String JVal)
    (ttl now : Nat) : StrategyOutcome κ :=
  let p := s.get k now
  match p.fst with
  | some cv =>
      if cv.truthy then ⟨.ok cv, p.snd, 0⟩
      else PerformanceOptimizer.loadAndStore p.snd k loader ttl now
  | none => PerformanceOptimizer.loadAndStore p.snd k loader ttl now

/-- `PerformanceOptimizer.networkFirst(key, loader, ttl)`: retried load
with `maxRetries: 1`; on success, store a truthy result and return it; on
failure, return the cached value if `get` yields a truthy one, else
rethrow the load error. -/
def PerformanceOptimizer.networkFirst {κ : Type u} [DecidableEq κ]
    (s : CacheManager κ) (k : κ) (loader : Nat → Except String JVal)
    (ttl now : Nat) : StrategyOutcome κ :=
  let r := PerformanceOptimizer.withRetry loader 1 1000
  match r.result with
  | .ok v => ⟨.ok v, if v.truthy then s.set k v ttl now else s, r.calls⟩
  | .error e =>
      let p := s.get k now
      match p.fst with
      | some cv =>
          if cv.truthy then ⟨.ok cv, p.snd, r.calls⟩
          else ⟨.error e, p.snd, r.calls⟩
      | none => ⟨.error e, p.snd, r.calls⟩

/-- `PerformanceOptimizer.staleWhileRevalidate(key, loader, ttl)`: a
truthy cached value is returned immediately while a background retried
load refreshes the cache (truthy results only; background failures are
only logged); otherwise load as in `cacheFirst`.  The returned cache
state is the one after the background load settles. -/
def PerformanceOptimizer.staleWhileRevalidate {κ : Type u} [DecidableEq κ]
    (s : CacheManager κ) (k : κ) (loader : Nat → Except String JVal)
    (ttl now : Nat) : StrategyOutcome κ :=
  let p := s.get k now
  match p.fst with
  | some cv =>
      if cv.truthy then
        let r := PerformanceOptimizer.withRetry loader 3 1000
        let s2 := match r.result with
          | .ok v => if v.truthy then p.snd.set k v ttl now else p.snd
          | .error _ => p.snd
        ⟨.ok cv, s2, r.calls⟩
      else PerformanceOptimizer.loadAndStore p.snd k loader ttl now
  | none => PerformanceOptimizer.loadAndStore p.snd k loader ttl now

/-- Result, cache state, in-flight registry, and loader invocations of a
single sequential `lazyLoad` call. -/
structure LazyOutcome (κ : Type u) : Type u where
  result : Except String JVal
  cache : CacheManager κ
  pending : List (κ × Except String JVal)
  loaderCalls : Nat

/-- Tail of `lazyLoad` after the cache check: join an in-flight load
(`activeRequests`, each registered key paired with the settled outcome of
its shared promise) or start one; the starter registers the key, stores a
truthy success into the cache, and deletes the key in `finally`, so the
registry is unchanged when the call completes. -/
def PerformanceOptimizer.lazyLoadStart {κ : Type u} [DecidableEq κ]
    (s1 : CacheManager κ) (pending : List (κ × Except String JVal)) (k : κ)
    (loader : Nat → Except String JVal) (cacheTTL now : Nat) : LazyOutcome κ :=
  match lookupEntry pending k with
  | some o => ⟨o, s1, pending, 0⟩
  | none =>
      let r := PerformanceOptimizer.withRetry loader 3 1000
      match r.result with
      | .ok v =>
          ⟨.ok v, if v.truthy then s1.set k v cacheTTL now else s1, pending, r.calls⟩
      | .error e => ⟨.error e, s1, pending, r.calls⟩

/-- `PerformanceOptimizer.lazyLoad(loader, options)` with a cache key, run
by a single caller: truthy cached value first, then the in-flight
registry, then a fresh retried load. -/
def PerformanceOptimizer.lazyLoad {κ : Type u} [DecidableEq κ]
    (s : CacheManager κ) (pending : List (κ × Except String JVal)) (k : κ)
    (loader : Nat → Except String JVal) (cacheTTL now : Nat) : LazyOutcome κ :=
  let p := s.get k now
  match p.fst with
  | some cv =>
      if cv.truthy then ⟨.ok cv, p.snd, pending, 0⟩
      else PerformanceOptimizer.lazyLoadStart p.snd pending k loader cacheTTL now
  | none => PerformanceOptimizer.lazyLoadStart p.snd pending k loader cacheTTL now

/-- A loader that resolves at once with the falsy value `0`. -/
def zeroLoader : Nat → Except String JVal := fun _ => .ok (.num 0)

/-- C8 (counterexample): the claim asserts a successful `networkFirst`
load is written into the cache, and that the load failure propagates iff
no cached value exists.  A falsy success (`0`) is returned but never
written (the fresh cache still has no entry for the key), and with a
falsy value cached under the key a failing load still propagates even
though a cached value exists. -/
theorem network_first_cex :
    (PerformanceOptimizer.networkFirst CacheManager.init "k" zeroLoader 300000 0).result
        = .ok (.num 0) ∧
    lookupEntry (PerformanceOptimizer.networkFirst CacheManager.init "k" zeroLoader
        300000 0).cache.cache "k" = none ∧
    lookupEntry (CacheManager.init.set "k" (JVal.num 0) 300000 0).cache "k"
        = some ⟨.num 0, 0, 300000⟩ ∧
    (PerformanceOptimizer.networkFirst (CacheManager.init.set "k" (JVal.num 0) 300000 0)
        "k" boomLoader 300000 5).result = .error "boom" :=
  ⟨rfl, rfl, rfl, rfl⟩

/-- C8 (amended): `networkFirst` first attempts a retried load with
`maxRetries = 1` (so at most 1 retry, at most 2 loader invocations); on
success it returns the result, writing it into the cache only when it is
truthy; on failure it returns the cached value when the cache read yields
a truthy value for the key and propagates the load failure otherwise
(also when the cached value is falsy). -/
theorem network_first_contract {κ : Type u} [DecidableEq κ]
    (s : CacheManager κ) (k : κ) (loader : Nat → Except String JVal)
    (ttl now : Nat) :
    (PerformanceOptimizer.networkFirst s k loader ttl now).loaderCalls ≤ 2 ∧
    (∀ v, (PerformanceOptimizer.withRetry loader 1 1000).result = .ok v →
      PerformanceOptimizer.networkFirst s k loader ttl now =
        ⟨.ok v, if v.truthy then s.set k v ttl now else s,
         (PerformanceOptimizer.withRetry loader 1 1000).calls⟩) ∧
    (∀ e, (PerformanceOptimizer.withRetry loader 1 1000).result = .error e →
      PerformanceOptimizer.networkFirst s k loader ttl now =
        ⟨(match (s.get k now).fst with
           | some cv => if cv.truthy then .ok cv else .error e
           | none => .error e),
         (s.get k now).snd,
         (PerformanceOptimizer.withRetry loader 1 1000).calls⟩) := by
  have hle : (PerformanceOptimizer.withRetry loader 1 1000).calls ≤ 2 :=
    PerformanceOptimizer.retryGo_calls_le loader 1000 2 10000 2 1
  refine ⟨?_, ?_, ?_⟩
  · unfold PerformanceOptimizer.networkFirst
    cases hr : (PerformanceOptimizer.withRetry loader 1 1000).result with
    | ok v => simpa [hr] using hle
    | error e =>
        cases hp : (s.get k now).fst with
        | none => simpa [hr, hp] using hle
        | some cv =>
            by_cases hcv : cv.truthy <;> simpa [hr, hp, hcv] using hle
  · intro v hv
    unfold PerformanceOptimizer.networkFirst
    simp [hv]
  · intro e he
    unfold PerformanceOptimizer.networkFirst
    cases hp : (s.get k now).fst with
    | none => simp [he, hp]
    | some cv => by_cases hcv : cv.truthy <;> simp [he, hp, hcv]

/-- C8 (witness): the failure path at a concrete input — empty cache,
always-failing loader — propagates the load failure after two loader
invocations. -/
theorem network_first_contract_witness :
    PerformanceOptimizer.networkFirst CacheManager.init "k" boomLoader 300000 0 =
      ⟨.error "boom", CacheManager.init, 2⟩ :=
  (network_first_contract CacheManager.init "k" boomLoader 300000 0).2.2 "boom" rfl

/-- C9 (confirmed): when the loader of any strategy settles successfully
with a falsy value on a key absent from the cache, the value is returned
to the caller, the cache is left exactly unchanged (no entry written), the
in-flight registry of `lazyLoad` is unchanged, and — as the final
conjunct shows for `cacheFirst` — a subsequent call for the same key
invokes the loader again (one more invocation) instead of hitting the
cache. -/
theorem falsy_success_no_cache {κ : Type u} [DecidableEq κ]
    (s : CacheManager κ) (k : κ) (loader : Nat → Except String JVal)
    (v : JVal) (ttl now : Nat)
    (hk : lookupEntry s.cache k = none) (hl : loader 1 = .ok v)
    (hv : v.truthy = false) :
    PerformanceOptimizer.cacheFirst s k loader ttl now = ⟨.ok v, s, 1⟩ ∧
    PerformanceOptimizer.networkFirst s k loader ttl now = ⟨.ok v, s, 1⟩ ∧
    PerformanceOptimizer.staleWhileRevalidate s k loader ttl now = ⟨.ok v, s, 1⟩ ∧
    PerformanceOptimizer.lazyLoad s [] k loader ttl now = ⟨.ok v, s, [], 1⟩ ∧
    PerformanceOptimizer.cacheFirst
        (PerformanceOptimizer.cacheFirst s k loader ttl now).cache k loader ttl now
      = ⟨.ok v, s, 1⟩ := by
  have hget : s.get k now = (none, s) := by
    unfold CacheManager.get
    rw [hk]
  have hwr3 := PerformanceOptimizer.withRetry_first_ok loader v 3 1000 hl
  have hwr1 := PerformanceOptimizer.withRetry_first_ok loader v 1 1000 hl
  have h1 : PerformanceOptimizer.cacheFirst s k loader ttl now = ⟨.ok v, s, 1⟩ := by
    simp [PerformanceOptimizer.cacheFirst, PerformanceOptimizer.loadAndStore,
      hget, hwr3, hv]
  refine ⟨h1, ?_, ?_, ?_, ?_⟩
  · simp [PerformanceOptimizer.networkFirst, hwr1, hv]
  · simp [PerformanceOptimizer.staleWhileRevalidate, PerformanceOptimizer.loadAndStore,
      hget, hwr3, hv]
  · simp [PerformanceOptimizer.lazyLoad, PerformanceOptimizer.lazyLoadStart,
      hget, hwr3, hv, lookupEntry]
  · rw [h1]
    exact h1

/-- C9 (witness): the falsy-success frame property at a concrete input —
fresh cache, loader resolving with `0`. -/
theorem falsy_success_no_cache_witness :
    PerformanceOptimizer.cacheFirst CacheManager.init "k" zeroLoader 300000 0
        = ⟨.ok (.num 0), CacheManager.init, 1⟩ ∧
    PerformanceOptimizer.lazyLoad CacheManager.init [] "k" zeroLoader 300000 0
        = ⟨.ok (.num 0), CacheManager.init, [], 1⟩ :=
  ⟨(falsy_success_no_cache CacheManager.init "k" zeroLoader (.num 0) 300000 0
      rfl rfl rfl).1,
   (falsy_success_no_cache CacheManager.init "k" zeroLoader (.num 0) 300000 0
      rfl rfl rfl).2.2.2.1⟩

/-- A plain list as a JS array value. -/
def JArr.ofList : List JVal → JArr
  | [] => .nil
  | x :: xs => .cons x (JArr.ofList xs)

/-- Return value of `ServicesManager.loadFromSupabase`:
`{ success: true, data }` or `{ success: false, error }`. -/
structure LoadResult : Type where
  success : Bool
  data : List JVal
  error : Option String

/-- `ServicesManager.loadFromSupabase(category)`: fails when the client
global is missing, when the remote call throws (after its retries), or
when the returned result object carries an error; otherwise it keeps the
sanitized form of every record the validator accepts (invalid records are
skipped, they do not abort the fetch) and succeeds with that list.
`remote` is the settled outcome of `supabaseClient.getServices`, and
`validate` abstracts `DataModels.validateService` as
(valid?, sanitized). -/
def ServicesManager.loadFromSupabase (clientAvailable : Bool)
    (remote : Except String (SupaResult (List JVal)))
    (validate : JVal → Bool × JVal) : LoadResult :=
  if clientAvailable then
    match remote with
    | .error e => ⟨false, [], some e⟩
    | .ok r =>
        match r.error with
        | some m => ⟨false, [], some m⟩
        | none =>
            ⟨true,
             (r.data.getD []).filterMap
               (fun svc => if (validate svc).fst then some (validate svc).snd else none),
             none⟩
  else ⟨false, [], some "Cliente Supabase não disponível"⟩

/-- The fixed fallback services (`ServicesManager.getFallbackServices`),
as JS objects (prices are whole numbers: 45.00, 120.00, 200.00, 25.00). -/
def ServicesManager.fallbackServices : List JVal :=
  [ .obj (.cons "id" (.str "fallback-1") (.cons "name" (.str "Buffet Completo")
      (.cons "description" (.str "Salgados, doces, bebidas e serviço completo")
      (.cons "price_per_person" (.num 45) (.cons "category" (.str "buffet")
      (.cons "active" (.bool true) .nil)))))),
    .obj (.cons "id" (.str "fallback-2") (.cons "name" (.str "Bolo Personalizado")
      (.cons "description" (.str "Bolos temáticos e personalizados para sua festa")
      (.cons "price_per_person" (.num 120) (.cons "category" (.str "doces")
      (.cons "active" (.bool true) .nil)))))),
    .obj (.cons "id" (.str "fallback-3") (.cons "name" (.str "Decoração Temática")
      (.cons "description" (.str "Decoração completa para todos os tipos de festa")
      (.cons "price_per_person" (.num 200) (.cons "category" (.str "decoracao")
      (.cons "active" (.bool true) .nil)))))),
    .obj (.cons "id" (.str "fallback-4") (.cons "name" (.str "Coffee Break Corporativo")
      (.cons "description" (.str "Café, salgados, doces e sucos para eventos empresariais")
      (.cons "price_per_person" (.num 25) (.cons "category" (.str "corporativo")
      (.cons "active" (.bool true) .nil)))))) ]

/-- The fallback list as the array value `loadServices` returns. -/
def ServicesManager.fallbackArr : JVal :=
  .arr (JArr.ofList ServicesManager.fallbackServices)

/-- The cache key `loadServices` uses:
`cacheManager.generateKey('services', { category })`. -/
def servicesKey (category : JVal) : String :=
  CacheManager.generateKey "services" (.cons "category" category .nil)

/-- What one `loadServices` call hands back: the returned array, the cache
afterwards, and whether the offline notice (`showOfflineMessage`) was
emitted. -/
structure ServicesOutcome : Type where
  returned : JVal
  cache : CacheManager String
  offlineNotice : Bool

/-- Tail of `loadServices` after the cache check: bail out while a load is
already in flight (returning `this.services` as it stands), otherwise
serve and cache the remote data when the load succeeded with at least one
valid record, and in every other case serve the fallback list and emit
the offline notice. -/
def ServicesManager.loadServicesMiss (s1 : CacheManager String) (isLoading : Bool)
    (currentServices : JVal) (lfs : LoadResult) (key : String) (now : Nat) :
    ServicesOutcome :=
  if isLoading then ⟨currentServices, s1, false⟩
  else if lfs.success ∧ 0 < lfs.data.length then
    ⟨.arr (JArr.ofList lfs.data),
     s1.set key (.arr (JArr.ofList lfs.data)) s1.defaultTTL now, false⟩
  else ⟨ServicesManager.fallbackArr, s1, true⟩

/-- `ServicesManager.loadServices(category, useCache)`: serve a truthy
cached array when `useCache` holds and the cache yields one; otherwise
run the miss path on the outcome `lfs` of `loadFromSupabase`. -/
def ServicesManager.loadServices (s : CacheManager String) (useCache isLoading : Bool)
    (currentServices category : JVal) (lfs : LoadResult) (now : Nat) :
    ServicesOutcome :=
  let key := servicesKey category
  let p := if useCache then s.get key now else (none, s)
  match p.fst with
  | some cv =>
      if cv.truthy then ⟨cv, p.snd, false⟩
      else ServicesManager.loadServicesMiss p.snd isLoading currentServices lfs key now
  | none => ServicesManager.loadServicesMiss p.snd isLoading currentServices lfs key now

/-- On a cache miss (or with the cache bypassed) `loadServices` reduces to
its miss path. -/
theorem ServicesManager.loadServices_miss_eq (s : CacheManager String)
    (useCache : Bool) (cur category : JVal) (lfs : LoadResult) (now : Nat)
    (h1 : useCache = false ∨ truthyOpt (s.get (servicesKey category) now).fst = false) :
    ServicesManager.loadServices s useCache false cur category lfs now =
      ServicesManager.loadServicesMiss
        (if useCache then (s.get (servicesKey category) now).snd else s)
        false cur lfs (servicesKey category) now := by
  unfold ServicesManager.loadServices
  rcases h1 with h | h
  · subst h
    simp
  · cases hu : useCache with
    | false => simp
    | true =>
        cases hp : (s.get (servicesKey category) now).fst with
        | none => simp [hp]
        | some cv =>
            have hcv : cv.truthy = false := by
              simpa [hp, truthyOpt] using h
            simp [hp, hcv]

/-- C10 (confirmed): with the cache bypassed or missing the key and no
load already in flight, `loadServices` returns the remote (validated)
data exactly when `loadFromSupabase` succeeded with a non-empty validated
record list, and in every other case — thrown remote failure, embedded
error, missing client, or a successful load whose validated list is empty
— it returns the fixed fallback list and emits the offline notice. -/
theorem services_fallback (s : CacheManager String) (useCache : Bool)
    (cur category : JVal) (avail : Bool)
    (remote : Except String (SupaResult (List JVal)))
    (validate : JVal → Bool × JVal) (now : Nat)
    (h1 : useCache = false ∨ truthyOpt (s.get (servicesKey category) now).fst = false) :
    ((ServicesManager.loadFromSupabase avail remote validate).success = true ∧
        (ServicesManager.loadFromSupabase avail remote validate).data ≠ [] →
      (ServicesManager.loadServices s useCache false cur category
          (ServicesManager.loadFromSupabase avail remote validate) now).returned
        = .arr (JArr.ofList (ServicesManager.loadFromSupabase avail remote validate).data) ∧
      (ServicesManager.loadServices s useCache false cur category
          (ServicesManager.loadFromSupabase avail remote validate) now).offlineNotice
        = false) ∧
    (¬ ((ServicesManager.loadFromSupabase avail remote validate).success = true ∧
        (ServicesManager.loadFromSupabase avail remote validate).data ≠ []) →
      (ServicesManager.loadServices s useCache false cur category
          (ServicesManager.loadFromSupabase avail remote validate) now).returned
        = ServicesManager.fallbackArr ∧
      (ServicesManager.loadServices s useCache false cur category
          (ServicesManager.loadFromSupabase avail remote validate) now).offlineNotice
        = true) := by
  rw [ServicesManager.loadServices_miss_eq s useCache cur category _ now h1]
  constructor
  · intro hok
    have hlen : 0 < (ServicesManager.loadFromSupabase avail remote validate).data.length :=
      List.length_pos.mpr hok.2
    simp [ServicesManager.loadServicesMiss, hok.1, hlen]
  · intro hko
    have : ¬ ((ServicesManager.loadFromSupabase avail remote validate).success = true ∧
        0 < (ServicesManager.loadFromSupabase avail remote validate).data.length) := by
      intro hcon
      exact hko ⟨hcon.1, List.length_pos.mp hcon.2⟩
    simp [ServicesManager.loadServicesMiss, this]

/-- A minimal valid service record. -/
def c10svc : JVal :=
  .obj (.cons "name" (.str "Buffet") (.cons "price_per_person" (.num 45) .nil))

/-- C10 (witness): a successful remote load with one valid record is
served as-is with no offline notice, on a fresh cache with the cache
bypassed. -/
theorem services_fallback_witness :
    (ServicesManager.loadServices CacheManager.init false false .null .null
        (ServicesManager.loadFromSupabase true (.ok ⟨some [c10svc], none⟩)
          (fun v => (true, v))) 0).returned
      = .arr (.cons c10svc .nil) ∧
    (ServicesManager.loadServices CacheManager.init false false .null .null
        (ServicesManager.loadFromSupabase true (.ok ⟨some [c10svc], none⟩)
          (fun v => (true, v))) 0).offlineNotice
      = false :=
  (services_fallback CacheManager.init false .null .null true
      (.ok ⟨some [c10svc], none⟩) (fun v => (true, v)) 0 (Or.inl rfl)).1
    ⟨rfl, fun h => List.noConfusion h⟩

/-- Reading the same key again at the same instant neither changes the
cache further nor changes the outcome: a hit stays a hit, a miss stays a
miss, and the deletion performed by an expired read has already
happened. -/
theorem CacheManager.get_get {κ : Type u} [DecidableEq κ] (s : CacheManager κ)
    (k : κ) (now : Nat) (h : (s.cache.map Prod.fst).Nodup) :
    (s.get k now).snd.get k now = ((s.get k now).fst, (s.get k now).snd) := by
  cases hl : lookupEntry s.cache k with
  | none =>
      have h1 : s.get k now = (none, s) := by
        unfold CacheManager.get
        rw [hl]
      rw [h1]
      unfold CacheManager.get
      rw [hl]
  | some e =>
      by_cases hexp : now - e.timestamp > e.ttl
      · have h1 : s.get k now = (none, { s with cache := deleteEntry s.cache k }) := by
          unfold CacheManager.get
          rw [hl]
          simp [hexp]
        have h2 : lookupEntry (deleteEntry s.cache k) k = none :=
          lookupEntry_deleteEntry_self h
        rw [h1]
        unfold CacheManager.get
        simpa using h2 ▸ rfl
      · have h1 : s.get k now = (some e.data, s) := by
          unfold CacheManager.get
          rw [hl]
          simp [hexp]
        rw [h1]
        unfold CacheManager.get
        rw [hl]
        simp [hexp]

/-- Shared state of the cooperative single-flight model: the cache, the
`activeRequests` registry (each registered key mapped to the identifier
of the load it awaits), the number of loads started so far, and a fresh
load identifier. -/
structure FlightState (κ : Type u) : Type u where
  cacheState : CacheManager κ
  active : List (κ × Nat)
  loaderStarts : Nat
  nextId : Nat

/-- What one caller's synchronous prefix of `lazyLoad` produced: a cache
hit returned immediately, or a (joined or newly started) load the caller
awaits. -/
inductive ArrivalOutcome : Type where
  | immediate : JVal → ArrivalOutcome
  | awaiting : Nat → ArrivalOutcome

/-- Registry step of an arriving `lazyLoad` caller: join the in-flight
load for the key if one is registered, otherwise start a new load (the
loader is invoked here, before the first suspension point) and register
it. -/
def PerformanceOptimizer.arriveJoin {κ : Type u} [DecidableEq κ]
    (st : FlightState κ) (k : κ) : FlightState κ × ArrivalOutcome :=
  match lookupEntry st.active k with
  | some i => (st, .awaiting i)
  | none =>
      ({ st with
          active := setEntry st.active k st.nextId,
          loaderStarts := st.loaderStarts + 1,
          nextId := st.nextId + 1 }, .awaiting st.nextId)

/-- The synchronous prefix of one `lazyLoad(loader, {cacheKey: k})` call
in the cooperative (event-loop) model: check the cache, then the
in-flight registry, then start and register a load.  The whole prefix
runs atomically — `lazyLoad` contains no `await` between the cache read
and the registry write. -/
def PerformanceOptimizer.arrive {κ : Type u} [DecidableEq κ]
    (st : FlightState κ) (k : κ) (now : Nat) : FlightState κ × ArrivalOutcome :=
  let p := st.cacheState.get k now
  let st1 := { st with cacheState := p.snd }
  match p.fst with
  | some cv =>
      if cv.truthy then (st1, .immediate cv)
      else PerformanceOptimizer.arriveJoin st1 k
  | none => PerformanceOptimizer.arriveJoin st1 k

/-- N callers for the same key arrive back-to-back (all while the load,
if any, is still outstanding). -/
def PerformanceOptimizer.arriveAll {κ : Type u} [DecidableEq κ]
    (st : FlightState κ) (k : κ) (now : Nat) :
    Nat → FlightState κ × List ArrivalOutcome
  | 0 => (st, [])
  | n + 1 =>
      let q := PerformanceOptimizer.arrive st k now
      let rest := PerformanceOptimizer.arriveAll q.fst k now n
      (rest.fst, q.snd :: rest.snd)

/-- The single load for `k` settles with outcome `o`: the owner's
continuation stores a truthy success into the cache and the `finally`
block removes `k` from the registry — on success and on failure alike.
Every caller holding `.awaiting` on this load observes exactly `o`. -/
def PerformanceOptimizer.settleFlight {κ : Type u} [DecidableEq κ]
    (st : FlightState κ) (k : κ) (o : Except String JVal) (ttl now : Nat) :
    FlightState κ :=
  let c := match o with
    | .ok v => if v.truthy then st.cacheState.set k v ttl now else st.cacheState
    | .error _ => st.cacheState
  { st with cacheState := c, active := deleteEntry st.active k }

/-- First arrival on a non-truthy cache and a free registry slot: the
caller starts load `st.nextId`, bumping the start counter. -/
theorem PerformanceOptimizer.arrive_first {κ : Type u} [DecidableEq κ]
    (st : FlightState κ) (k : κ) (now : Nat)
    (hmiss : truthyOpt (st.cacheState.get k now).fst = false)
    (hfree : lookupEntry st.active k = none) :
    PerformanceOptimizer.arrive st k now =
      (⟨(st.cacheState.get k now).snd, setEntry st.active k st.nextId,
        st.loaderStarts + 1, st.nextId + 1⟩, .awaiting st.nextId) := by
  unfold PerformanceOptimizer.arrive
  cases hp : (st.cacheState.get k now).fst with
  | none => simp [hp, PerformanceOptimizer.arriveJoin, hfree]
  | some cv =>
      have hcv : cv.truthy = false := by
        simpa [hp, truthyOpt] using hmiss
      simp [hp, hcv, PerformanceOptimizer.arriveJoin, hfree]

/-- Arrival while the key is registered and the cache read is non-truthy
and stable: the caller joins the registered load and the state does not
change. -/
theorem PerformanceOptimizer.arrive_joins {κ : Type u} [DecidableEq κ]
    (st : FlightState κ) (k : κ) (now i : Nat)
    (hmiss : truthyOpt (st.cacheState.get k now).fst = false)
    (hsnd : (st.cacheState.get k now).snd = st.cacheState)
    (hreg : lookupEntry st.active k = some i) :
    PerformanceOptimizer.arrive st k now = (st, .awaiting i) := by
  unfold PerformanceOptimizer.arrive
  cases hp : (st.cacheState.get k now).fst with
  | none => simp [hp, PerformanceOptimizer.arriveJoin, hreg, hsnd]
  | some cv =>
      have hcv : cv.truthy = false := by
        simpa [hp, truthyOpt] using hmiss
      simp [hp, hcv, PerformanceOptimizer.arriveJoin, hreg, hsnd]

/-- A state every arrival fixes produces only joins. -/
theorem PerformanceOptimizer.arriveAll_fixed {κ : Type u} [DecidableEq κ]
    (st : FlightState κ) (k : κ) (now i : Nat)
    (ha : PerformanceOptimizer.arrive st k now = (st, .awaiting i)) :
    ∀ n, PerformanceOptimizer.arriveAll st k now n =
      (st, List.replicate n (.awaiting i)) := by
  intro n
  induction n with
  | zero => simp [PerformanceOptimizer.arriveAll]
  | succ m ih =>
      unfold PerformanceOptimizer.arriveAll
      rw [ha]
      simp [ih, List.replicate_succ]

/-- C2 (confirmed): in the cooperative interleaving model, when N ≥ 1
callers invoke `lazyLoad` for key `k` while the cache holds no truthy
value for `k` and no load for `k` is in flight, exactly one underlying
(retried) load is started, every caller awaits that same load — hence
all observe its one settled outcome, success or failure — and settling
removes `k` from the in-flight registry regardless of the outcome.
Stated for states whose cache and registry key lists are duplicate-free
(the `Map` representation invariant). -/
theorem single_flight_dedup (st0 : FlightState String) (k : String)
    (now ttl N : Nat) (o : Except String JVal) (hN : 1 ≤ N)
    (hnd : (st0.cacheState.cache.map Prod.fst).Nodup)
    (hand : (st0.active.map Prod.fst).Nodup)
    (hmiss : truthyOpt (st0.cacheState.get k now).fst = false)
    (hfree : lookupEntry st0.active k = none) :
    (PerformanceOptimizer.arriveAll st0 k now N).fst.loaderStarts
        = st0.loaderStarts + 1 ∧
    (PerformanceOptimizer.arriveAll st0 k now N).snd
        = List.replicate N (.awaiting st0.nextId) ∧
    lookupEntry (PerformanceOptimizer.settleFlight
        (PerformanceOptimizer.arriveAll st0 k now N).fst k o ttl now).active k
      = none := by
  obtain ⟨m, rfl⟩ : ∃ m, N = m + 1 := ⟨N - 1, by omega⟩
  have hfirst := PerformanceOptimizer.arrive_first st0 k now hmiss hfree
  set st1 : FlightState String :=
    ⟨(st0.cacheState.get k now).snd, setEntry st0.active k st0.nextId,
     st0.loaderStarts + 1, st0.nextId + 1⟩ with hst1
  have hgg := CacheManager.get_get st0.cacheState k now hnd
  have hmiss1 : truthyOpt (st1.cacheState.get k now).fst = false := by
    rw [hst1]
    simpa [hgg] using hmiss
  have hsnd1 : (st1.cacheState.get k now).snd = st1.cacheState := by
    rw [hst1]
    simp [hgg]
  have hreg1 : lookupEntry st1.active k = some st0.nextId := by
    rw [hst1]
    exact lookupEntry_setEntry_self _ _ _
  have hjoin := PerformanceOptimizer.arrive_joins st1 k now st0.nextId
    hmiss1 hsnd1 hreg1
  have hfix := PerformanceOptimizer.arriveAll_fixed st1 k now st0.nextId hjoin m
  have hall : PerformanceOptimizer.arriveAll st0 k now (m + 1)
      = (st1, List.replicate (m + 1) (.awaiting st0.nextId)) := by
    unfold PerformanceOptimizer.arriveAll
    rw [hfirst]
    simp [hfix, List.replicate_succ]
  rw [hall]
  refine ⟨rfl, rfl, ?_⟩
  have hactive : ((st1.active).map Prod.fst).Nodup := by
    rw [hst1]
    exact nodup_map_fst_setEntry hand
  unfold PerformanceOptimizer.settleFlight
  exact lookupEntry_deleteEntry_self hactive

/-- C2 (witness): three concurrent callers on a fresh state — one load
started, all three awaiting load 0, registry clean after settlement. -/
theorem single_flight_dedup_witness :
    (PerformanceOptimizer.arriveAll ⟨CacheManager.init, [], 0, 0⟩ "k" 0 3).fst.loaderStarts
        = 0 + 1 ∧
    (PerformanceOptimizer.arriveAll ⟨CacheManager.init, [], 0, 0⟩ "k" 0 3).snd
        = List.replicate 3 (.awaiting 0) ∧
    lookupEntry (PerformanceOptimizer.settleFlight
        (PerformanceOptimizer.arriveAll ⟨CacheManager.init, [], 0, 0⟩ "k" 0 3).fst
        "k" (.ok (.str "v")) 300000 0).active "k"
      = none :=
  single_flight_dedup ⟨CacheManager.init, [], 0, 0⟩ "k" 0 300000 3 (.ok (.str "v"))
    (by omega) (by simp [CacheManager.init]) (by simp) rfl rfl
